import Mathlib

/-!
The package `internal/testlog`: a verification development

Shallow embedding of `src/internal/testlog/testlog.go`.

The Go type `logger` has three fields: the delegate `l` (a `log.Logger` of the
external logging library), the mutex pointer `mu` and the string `prefix`.
The word prefix is reserved in Lean, so the field is called `pfx` here.

Effects of the program are made explicit: a `World` holds the heap of mutex
cells and the trace of effects (lock, unlock, call of the delegate's write
path, process exit) in program order. A method of the source is a function
from a world to an `Outcome`.
-/

namespace testlog

/-! ## Data model -/

/-- The Go type `slog.Level`, an integer. -/
abbrev Level := Int

/-- Modelled from the spec: the constant `log.LevelTrace` of the external logging
library, the least of the six severities (trace < debug < info < warn < error <
critical). -/
def LevelTrace : Level := -8

/-- Modelled from the spec: the constant `log.LevelDebug` of the external logging
library. -/
def LevelDebug : Level := -4

/-- Modelled from the spec: the constant `log.LevelInfo` of the external logging
library. -/
def LevelInfo : Level := 0

/-- Modelled from the spec: the constant `log.LevelWarn` of the external logging
library. -/
def LevelWarn : Level := 4

/-- Modelled from the spec: the constant `log.LevelError` of the external logging
library. -/
def LevelError : Level := 8

/-- Modelled from the spec: the constant `log.LevelCrit` of the external logging
library, the greatest of the six severities. -/
def LevelCrit : Level := 12

/-- Values of Go's `interface{}` / `any` that are passed as attributes. -/
inductive Any where
  | str (s : String)
  | int (n : Int)
  | null
  deriving DecidableEq, Repr

/-- A handle `*testing.T`: the test whose log is meant. -/
structure TestingT where
  id : Nat
  deriving DecidableEq, Repr

/-- A handle `context.Context`. -/
structure Context where
  id : Nat
  deriving DecidableEq, Repr

/-- Destinations that the `io.Writer` given to a handler can denote: the two
process-wide streams and the log of a unit test (what `t.Log` writes to). -/
inductive Writer where
  | Stdout
  | Stderr
  | TestLog (t : TestingT)
  deriving DecidableEq, Repr

/-- The value built by `log.NewTerminalHandlerWithSource(w, lvl, useColor)`:
it records the three arguments of the call. -/
structure TerminalHandler where
  wr : Writer
  lvl : Level
  useColor : Bool
  deriving DecidableEq, Repr

/-- The call `log.NewTerminalHandlerWithSource(wr, lvl, useColor)`. -/
def NewTerminalHandlerWithSource (wr : Writer) (lvl : Level) (useColor : Bool) :
    TerminalHandler :=
  { wr := wr, lvl := lvl, useColor := useColor }

/-- The struct `log.LoggerOptions`. -/
structure LoggerOptions where
  SkipCallers : Nat
  deriving DecidableEq, Repr

/-- A delegate logger (`log.Logger` of the external library): the handler it
was built on, its options, and the attributes bound to it by `With`. -/
structure Delegate where
  h : TerminalHandler
  opts : LoggerOptions
  bound : List Any
  deriving DecidableEq, Repr

/-- The call `log.NewLoggerWithOpts(h, opts)`. -/
def NewLoggerWithOpts (h : TerminalHandler) (opts : LoggerOptions) : Delegate :=
  { h := h, opts := opts, bound := [] }

/-- The delegate's `With(ctx...)`: the derived delegate, bound with `ctx` after
the attributes already bound. -/
def Delegate.With (d : Delegate) (ctx : List Any) : Delegate :=
  { d with bound := d.bound ++ ctx }

/-- The delegate's `Handler()`. -/
def Delegate.Handler (d : Delegate) : TerminalHandler := d.h

/-- The Go struct `logger`. `mu` is the address of a mutex cell in the heap of
the world; `pfx` is the field `prefix`. -/
structure logger where
  l : Delegate
  mu : Nat
  pfx : String
  deriving DecidableEq, Repr

/-- One observable effect. -/
inductive Event where
  | lock (mu : Nat)
  | unlock (mu : Nat)
  | write (d : Delegate) (level : Level) (msg : String) (attrs : List Any)
  | exit (code : Int)
  deriving DecidableEq, Repr

/-- The state the program acts on: the mutex cells allocated so far (`true` is
locked), addressed by position, and the effects so far, oldest first. -/
structure World where
  mutexes : List Bool
  trace : List Event
  deriving DecidableEq, Repr

/-- How a call ends: it returns a value, it waits for a mutex that is held, the
process is terminated by `os.Exit`, or the Go runtime aborts (nil or dangling
mutex pointer, unlock of an unlocked mutex). -/
inductive Outcome (α : Type) where
  | ret (w : World) (a : α)
  | blocked (w : World)
  | exited (w : World) (code : Int)
  | aborted (w : World)
  deriving DecidableEq, Repr

/-- A stateful computation. -/
def M (α : Type) : Type := World → Outcome α

/-- Sequencing: the second computation runs only when the first returns. -/
def M.bind {α β : Type} (m : M α) (f : α → M β) : M β := fun w =>
  match m w with
  | .ret w1 a => f a w1
  | .blocked w1 => .blocked w1
  | .exited w1 c => .exited w1 c
  | .aborted w1 => .aborted w1

/-- A computation that returns at once. -/
def M.pure {α : Type} (a : α) : M α := fun w => .ret w a

instance : Monad M where
  pure := M.pure
  bind := M.bind

/-- Appends an effect to the trace. -/
def emit (e : Event) (w : World) : World :=
  { w with trace := w.trace ++ [e] }

/-! ## The primitives the source calls -/

/-- The expression `new(sync.Mutex)`: a fresh unlocked cell; its address is
returned. -/
def newMutex : M Nat := fun w =>
  .ret { w with mutexes := w.mutexes ++ [false] } w.mutexes.length

/-- The call `mu.Lock()`: takes a free mutex, waits on a held one. -/
def Lock (mu : Nat) : M Unit := fun w =>
  match w.mutexes[mu]? with
  | some false => .ret (emit (.lock mu) { w with mutexes := w.mutexes.set mu true }) ()
  | some true => .blocked w
  | none => .aborted w

/-- The call `mu.Unlock()`: releases a held mutex; on a free one the runtime
aborts. -/
def Unlock (mu : Nat) : M Unit := fun w =>
  match w.mutexes[mu]? with
  | some true => .ret (emit (.unlock mu) { w with mutexes := w.mutexes.set mu false }) ()
  | some false => .aborted w
  | none => .aborted w

/-- The call `os.Exit(code)`: the process ends, nothing after it runs, deferred
calls included. -/
def osExit {α : Type} (code : Int) : M α := fun w =>
  .exited (emit (.exit code) w) code

/-- The delegate's write path `d.Write(level, msg, attrs...)`, an external
call: it is recorded with its arguments. -/
def Delegate.Write (d : Delegate) (level : Level) (msg : String) (attrs : List Any) :
    M Unit := fun w =>
  .ret (emit (.write d level msg attrs) w) ()

/-- Go's `defer d` around `body`: `d` runs when `body` returns, and does not
run when the process has exited inside `body` or `body` waits for ever. (No
body in this file aborts.) -/
def withDefer (d : M Unit) (body : M Unit) : M Unit := fun w =>
  match body w with
  | .ret w1 _ => d w1
  | .blocked w1 => .blocked w1
  | .exited w1 c => .exited w1 c
  | .aborted w1 => .aborted w1

/-! ## The methods of `logger` -/

/-- The function `Logger(t, level, optionalPrefix...)`. -/
def Logger (_t : TestingT) (level : Level) (optionalPrefix : List String) : M logger := do
  let h := NewTerminalHandlerWithSource Writer.Stderr level false
  let pfx := if hlen : optionalPrefix.length > 0 then optionalPrefix[0] else ""
  let mu ← newMutex
  return { l := NewLoggerWithOpts h { SkipCallers := 1 }, mu := mu, pfx := pfx }

/-- The method `With`. -/
def logger.With (l : logger) (ctx : List Any) : logger :=
  { l := l.l.With ctx, mu := l.mu, pfx := l.pfx }

/-- The method `New`. -/
def logger.New (l : logger) (ctx : List Any) : logger :=
  l.With ctx

/-- The method `Write`. -/
def logger.Write (l : logger) (level : Level) (msg : String) (attrs : List Any) : M Unit :=
  let msg := if l.pfx ≠ "" then l.pfx ++ " " ++ msg else msg
  l.l.Write level msg attrs

/-- The method `Log`. -/
def logger.Log (l : logger) (level : Level) (msg : String) (ctx : List Any) : M Unit :=
  l.Write level msg ctx

/-- The method `Trace`. -/
def logger.Trace (l : logger) (msg : String) (ctx : List Any) : M Unit := do
  Lock l.mu
  withDefer (Unlock l.mu) (l.Write LevelTrace msg ctx)

/-- The method `Debug`. -/
def logger.Debug (l : logger) (msg : String) (ctx : List Any) : M Unit := do
  Lock l.mu
  withDefer (Unlock l.mu) (l.Write LevelDebug msg ctx)

/-- The method `Info`. -/
def logger.Info (l : logger) (msg : String) (ctx : List Any) : M Unit := do
  Lock l.mu
  withDefer (Unlock l.mu) (l.Write LevelInfo msg ctx)

/-- The method `Warn`. -/
def logger.Warn (l : logger) (msg : String) (ctx : List Any) : M Unit := do
  Lock l.mu
  withDefer (Unlock l.mu) (l.Write LevelWarn msg ctx)

/-- The method `Error`. -/
def logger.Error (l : logger) (msg : String) (ctx : List Any) : M Unit := do
  Lock l.mu
  withDefer (Unlock l.mu) (l.Write LevelError msg ctx)

/-- The method `Crit`. -/
def logger.Crit (l : logger) (msg : String) (ctx : List Any) : M Unit := do
  Lock l.mu
  withDefer (Unlock l.mu) (do
    l.Write LevelCrit msg ctx
    osExit 1)

/-- The method `Enabled`. -/
def logger.Enabled (_l : logger) (_ctx : Context) (_level : Level) : Bool :=
  true

/-- The method `Handler`. -/
def logger.Handler (l : logger) : TerminalHandler :=
  l.l.Handler

/-! ## The method set as data -/

/-- A call of one of the methods of `logger`, with its arguments. -/
inductive Call where
  | With (ctx : List Any)
  | New (ctx : List Any)
  | Log (level : Level) (msg : String) (ctx : List Any)
  | Trace (msg : String) (ctx : List Any)
  | Debug (msg : String) (ctx : List Any)
  | Info (msg : String) (ctx : List Any)
  | Warn (msg : String) (ctx : List Any)
  | Error (msg : String) (ctx : List Any)
  | Crit (msg : String) (ctx : List Any)
  | Write (level : Level) (msg : String) (attrs : List Any)
  | Enabled (ctx : Context) (level : Level)
  | Handler
  deriving DecidableEq, Repr

/-- What a method hands back. -/
inductive Result where
  | unit
  | logger (l : logger)
  | bool (b : Bool)
  | handler (h : TerminalHandler)
  deriving DecidableEq, Repr

/-- Runs the method named by a call on the receiver `l`. -/
def logger.invoke (l : logger) : Call → M Result
  | .With ctx => fun w => .ret w (.logger (l.With ctx))
  | .New ctx => fun w => .ret w (.logger (l.New ctx))
  | .Log level msg ctx => do l.Log level msg ctx; return .unit
  | .Trace msg ctx => do l.Trace msg ctx; return .unit
  | .Debug msg ctx => do l.Debug msg ctx; return .unit
  | .Info msg ctx => do l.Info msg ctx; return .unit
  | .Warn msg ctx => do l.Warn msg ctx; return .unit
  | .Error msg ctx => do l.Error msg ctx; return .unit
  | .Crit msg ctx => do l.Crit msg ctx; return .unit
  | .Write level msg attrs => do l.Write level msg attrs; return .unit
  | .Enabled ctx level => fun w => .ret w (.bool (l.Enabled ctx level))
  | .Handler => fun w => .ret w (.handler l.Handler)

/-- One derivation step: `With` or `New`, with its attributes. -/
inductive Derivation where
  | With (ctx : List Any)
  | New (ctx : List Any)
  deriving DecidableEq, Repr

/-- The attributes of a derivation step. -/
def Derivation.ctx : Derivation → List Any
  | .With ctx => ctx
  | .New ctx => ctx

/-- Applies one derivation step to a logger. -/
def logger.step (l : logger) : Derivation → logger
  | .With ctx => l.With ctx
  | .New ctx => l.New ctx

/-- The logger reached from `l` by a finite chain of `With` / `New` calls. -/
def logger.derive (l : logger) (chain : List Derivation) : logger :=
  chain.foldl logger.step l

/-- The attributes of a chain of derivation steps, in the order of the steps. -/
def chainAttrs : List Derivation → List Any
  | [] => []
  | c :: rest => c.ctx ++ chainAttrs rest

/-! ## Vocabulary of the statements -/

/-- The effective message of a logger with prefix `p` for the text `m`. -/
def effectiveMsg (p m : String) : String :=
  if p = "" then m else p ++ " " ++ m

/-- The state of the mutex at address `mu`: `some false` is free, `some true`
is held, `none` is not allocated. -/
def lockState (w : World) (mu : Nat) : Option Bool := w.mutexes[mu]?

/-- The world in which a call ended. -/
def Outcome.world {α : Type} : Outcome α → World
  | .ret w _ => w
  | .blocked w => w
  | .exited w _ => w
  | .aborted w => w

/-- The effects a call added to the trace of the world `w` it started in. -/
def newEvents {α : Type} (w : World) (o : Outcome α) : List Event :=
  o.world.trace.drop w.trace.length

/-- Whether an effect is a call of the delegate's write path. -/
def Event.isWrite : Event → Bool
  | .write _ _ _ _ => true
  | _ => false

/-- The calls of the delegate's write path among some effects. -/
def writesOf (es : List Event) : List Event := es.filter Event.isWrite

/-- A line of output: the stream it goes to and what it carries. -/
structure Line where
  wr : Writer
  msg : String
  attrs : List Any
  deriving DecidableEq, Repr

/-- Modelled from the spec: the write path of the delegate, which is the external
logging library (not under src/). A record below the handler's minimum level is
suppressed; any other record becomes one line on the handler's stream, carrying
the message text, the attributes bound by derivation and the supplied
attributes. -/
def Delegate.render (d : Delegate) (level : Level) (msg : String) (attrs : List Any) :
    Option Line :=
  if level < d.h.lvl then none
  else some { wr := d.h.wr, msg := msg, attrs := d.bound ++ attrs }

/-- The output lines that some effects give rise to. -/
def outputOf (es : List Event) : List Line :=
  es.filterMap fun e =>
    match e with
    | .write d level msg attrs => d.render level msg attrs
    | _ => none

/-! ## Two threads -/

/-- The six leveled operations. -/
inductive Leveled where
  | Trace
  | Debug
  | Info
  | Warn
  | Error
  | Crit
  deriving DecidableEq, Repr

/-- The fixed level of a leveled operation. -/
def Leveled.level : Leveled → Level
  | .Trace => LevelTrace
  | .Debug => LevelDebug
  | .Info => LevelInfo
  | .Warn => LevelWarn
  | .Error => LevelError
  | .Crit => LevelCrit

/-- The method of `logger` for a leveled operation. -/
def logger.leveled (l : logger) : Leveled → String → List Any → M Unit
  | .Trace => l.Trace
  | .Debug => l.Debug
  | .Info => l.Info
  | .Warn => l.Warn
  | .Error => l.Error
  | .Crit => l.Crit

/-- An indivisible action of a thread. The delegate's write path is not
indivisible: it is entered and left by separate actions, so that another
thread can run in between. -/
inductive Action where
  | lock (mu : Nat)
  | unlock (mu : Nat)
  | writeBegin (d : Delegate) (level : Level) (msg : String) (attrs : List Any)
  | writeEnd
  | exit (code : Int)
  deriving DecidableEq, Repr

/-- The actions of a leveled operation in program order. In `Crit` the call of
`os.Exit` comes before the function returns, so the deferred unlock is never
reached. -/
def logger.program (l : logger) (op : Leveled) (msg : String) (ctx : List Any) :
    List Action :=
  let msg := if l.pfx ≠ "" then l.pfx ++ " " ++ msg else msg
  match op with
  | .Crit => [.lock l.mu, .writeBegin l.l LevelCrit msg ctx, .writeEnd, .exit 1]
  | op => [.lock l.mu, .writeBegin l.l op.level msg ctx, .writeEnd, .unlock l.mu]

/-- The actions of the generic `Log`: the write alone. -/
def logger.programLog (l : logger) (level : Level) (msg : String) (ctx : List Any) :
    List Action :=
  let msg := if l.pfx ≠ "" then l.pfx ++ " " ++ msg else msg
  [.writeBegin l.l level msg ctx, .writeEnd]

/-- One action run by a thread that is alone. -/
def Action.run : Action → M Unit
  | .lock mu => Lock mu
  | .unlock mu => Unlock mu
  | .writeBegin d level msg attrs => d.Write level msg attrs
  | .writeEnd => M.pure ()
  | .exit code => osExit code

/-- A list of actions run by a thread that is alone. -/
def runActions : List Action → M Unit
  | [] => M.pure ()
  | a :: rest => M.bind a.run fun _ => runActions rest

/-- The names of the two threads. -/
inductive Tid where
  | A
  | B
  deriving DecidableEq, Repr

/-- A thread: its actions and how many of them it has done. -/
structure Thread where
  prog : List Action
  pc : Nat
  deriving DecidableEq, Repr

/-- A process with two threads: the mutex cells, whether the process has ended
(by `os.Exit` or by an abort of the runtime), the threads, and the actions done
so far with the thread that did each, oldest first. -/
structure Sys where
  mutexes : List Bool
  halted : Bool
  a : Thread
  b : Thread
  log : List (Tid × Action)
  deriving DecidableEq, Repr

/-- The thread of a name. -/
def Sys.thread (s : Sys) : Tid → Thread
  | .A => s.a
  | .B => s.b

/-- Thread `t` has done the action `act`: it is logged and the thread moves
on. -/
def Sys.advance (s : Sys) (t : Tid) (act : Action) : Sys :=
  match t with
  | .A => { s with a := { s.a with pc := s.a.pc + 1 }, log := s.log ++ [(t, act)] }
  | .B => { s with b := { s.b with pc := s.b.pc + 1 }, log := s.log ++ [(t, act)] }

/-- The scheduler lets thread `t` run one action. A thread that waits for a held
mutex, or has finished, does nothing; after the process has ended nothing
runs. -/
def Sys.step (s : Sys) (t : Tid) : Sys :=
  if s.halted then s
  else
    match (s.thread t).prog[(s.thread t).pc]? with
    | none => s
    | some (.lock mu) =>
      match s.mutexes[mu]? with
      | some false => { s.advance t (.lock mu) with mutexes := s.mutexes.set mu true }
      | some true => s
      | none => { s with halted := true }
    | some (.unlock mu) =>
      match s.mutexes[mu]? with
      | some true => { s.advance t (.unlock mu) with mutexes := s.mutexes.set mu false }
      | some false => { s with halted := true }
      | none => { s with halted := true }
    | some (.writeBegin d level msg attrs) => s.advance t (.writeBegin d level msg attrs)
    | some .writeEnd => s.advance t .writeEnd
    | some (.exit code) => { s.advance t (.exit code) with halted := true }

/-- The process under a schedule: the list of the threads chosen, in order. -/
def Sys.run (s : Sys) (schedule : List Tid) : Sys :=
  schedule.foldl Sys.step s

/-- The process before either thread has run. -/
def Sys.init (mutexes : List Bool) (progA progB : List Action) : Sys :=
  { mutexes := mutexes, halted := false, a := { prog := progA, pc := 0 },
    b := { prog := progB, pc := 0 }, log := [] }

/-- Reads one entry of the log, knowing which thread, if any, is inside the
delegate's write path; `none` as a state says that two writes have overlapped
(a write was entered while another was under way, or left by a thread that was
not inside it). -/
def scan (st : Option (Option Tid)) (e : Tid × Action) : Option (Option Tid) :=
  match st with
  | none => none
  | some cur =>
    match e.2 with
    | .writeBegin _ _ _ _ => if cur = none then some (some e.1) else none
    | .writeEnd => if cur = some e.1 then some none else none
    | _ => some cur

/-- The writes of a log are executed one wholly before the other. -/
def serialized (log : List (Tid × Action)) : Bool :=
  (log.foldl scan (some none)).isSome

/-- A thread at position `pc` of a leveled operation holds the mutex: it has
locked it and has neither unlocked it nor ended the process. -/
def holds (pc : Nat) : Bool := decide (1 ≤ pc ∧ pc ≤ 3)

/-- The thread that is inside the delegate's write path, if any. -/
def writerOf (s : Sys) : Option Tid :=
  if s.a.pc = 2 then some .A else if s.b.pc = 2 then some .B else none

/-- The invariant of a process whose threads run the actions `pa` and `pb`, each
a leveled operation on the mutex `mu`: the log has been read without overlap up
to the thread that is inside a write, and, while the process lives, the mutex is
held exactly when one thread holds it, and never by both. -/
def Inv (mu : Nat) (pa pb : List Action) (s : Sys) : Prop :=
  s.a.prog = pa ∧ s.b.prog = pb ∧ s.a.pc ≤ 4 ∧ s.b.pc ≤ 4 ∧
    s.log.foldl scan (some none) = some (writerOf s) ∧
    (s.halted = true ∨
      (s.mutexes[mu]? = some (holds s.a.pc || holds s.b.pc) ∧
        (holds s.a.pc && holds s.b.pc) = false))

/-- The shape of the actions of a leveled operation on the mutex `mu`. -/
def leveledShape (mu : Nat) (p : List Action) : Prop :=
  ∃ (d : Delegate) (v : Level) (msg : String) (attrs : List Any) (last : Action),
    p = [.lock mu, .writeBegin d v msg attrs, .writeEnd, last] ∧
      (last = .unlock mu ∨ last = .exit 1)

/-! ## Lemmas on the primitives -/

theorem set_back (xs : List Bool) (i : Nat) (b c : Bool) (h : xs[i]? = some b) :
    (xs.set i c).set i b = xs := by
  rw [List.set_set]
  apply List.ext_getElem?
  intro n
  by_cases hn : i = n
  · subst hn
    obtain ⟨hi, _⟩ := List.getElem?_eq_some.mp h
    simp [List.getElem?_set, hi, h]
  · simp [List.getElem?_set, hn]

theorem getElem?_set_same (xs : List Bool) (i : Nat) (b c : Bool) (h : xs[i]? = some b) :
    (xs.set i c)[i]? = some c := by
  obtain ⟨hi, _⟩ := List.getElem?_eq_some.mp h
  simp [List.getElem?_set, hi]

theorem Write_eq (l : logger) (v : Level) (m : String) (a : List Any) (w : World) :
    l.Write v m a w = .ret (emit (.write l.l v (effectiveMsg l.pfx m) a) w) () := by
  unfold logger.Write effectiveMsg Delegate.Write
  by_cases hp : l.pfx = "" <;> simp [hp]

/-- The shape shared by `Trace`, `Debug`, `Info`, `Warn` and `Error`, on a free
mutex. -/
theorem guarded_free (l : logger) (v : Level) (m : String) (a : List Any) (w : World)
    (h : lockState w l.mu = some false) :
    (M.bind (Lock l.mu) fun _ => withDefer (Unlock l.mu) (l.Write v m a)) w =
      .ret { mutexes := w.mutexes,
             trace := w.trace ++
               [.lock l.mu, .write l.l v (effectiveMsg l.pfx m) a, .unlock l.mu] } () := by
  unfold lockState at h
  have h2 := getElem?_set_same w.mutexes l.mu false true h
  have h3 := set_back w.mutexes l.mu false true h
  simp [M.bind, Lock, withDefer, Unlock, Write_eq, emit, h, h2, h3]

/-- The shape shared by the six leveled operations, on a held mutex. -/
theorem guarded_held (l : logger) (body : M Unit) (w : World)
    (h : lockState w l.mu = some true) :
    (M.bind (Lock l.mu) fun _ => withDefer (Unlock l.mu) body) w = .blocked w := by
  unfold lockState at h
  simp [M.bind, Lock, h]

theorem Crit_free (l : logger) (m : String) (a : List Any) (w : World)
    (h : lockState w l.mu = some false) :
    l.Crit m a w =
      .exited { mutexes := w.mutexes.set l.mu true,
                trace := w.trace ++
                  [.lock l.mu, .write l.l LevelCrit (effectiveMsg l.pfx m) a, .exit 1] } 1 := by
  unfold lockState at h
  show (M.bind (Lock l.mu) fun _ => withDefer (Unlock l.mu)
    (M.bind (l.Write LevelCrit m a) fun _ => osExit 1)) w = _
  simp [M.bind, Lock, withDefer, osExit, Write_eq, emit, h]

theorem newEvents_append {α : Type} (w : World) (o : Outcome α) (es : List Event)
    (h : o.world.trace = w.trace ++ es) : newEvents w o = es := by
  simp [newEvents, h]

theorem newEvents_ret {α : Type} (w : World) (ms : List Bool) (es : List Event) (x : α) :
    newEvents w (Outcome.ret { mutexes := ms, trace := w.trace ++ es } x) = es := by
  simp [newEvents, Outcome.world]

theorem newEvents_exited {α : Type} (w : World) (ms : List Bool) (es : List Event)
    (c : Int) :
    newEvents w (Outcome.exited { mutexes := ms, trace := w.trace ++ es } c : Outcome α) =
      es := by
  simp [newEvents, Outcome.world]

/-! ## The write path -/

/-- C1: `Write(v, m, a)` on a logger with prefix `p` returns after exactly one
call of the delegate's write path, with level `v` and attributes `a` unchanged;
the message is `m` when `p` is empty and `p ++ " " ++ m` otherwise, and the
mutex cells are untouched. With prefix "[sync]", the message "peer connected"
with attributes ("id", 7) reaches the delegate as "[sync] peer connected" with
the same attributes. -/
theorem C1_Write_forwards_once (l : logger) (v : Level) (m : String) (a : List Any)
    (w : World) :
    l.Write v m a w =
        .ret { mutexes := w.mutexes,
               trace := w.trace ++
                 [.write l.l v (if l.pfx = "" then m else l.pfx ++ " " ++ m) a] } () ∧
      newEvents w (l.Write v m a w) =
        [.write l.l v (if l.pfx = "" then m else l.pfx ++ " " ++ m) a] ∧
      (∀ (d : Delegate) (mu : Nat),
        newEvents w
            (({ l := d, mu := mu, pfx := "[sync]" } : logger).Write LevelInfo
              "peer connected" [.str "id", .int 7] w) =
          [.write d LevelInfo "[sync] peer connected" [.str "id", .int 7]]) := by
  have key : ∀ (l : logger) (v : Level) (m : String) (a : List Any),
      l.Write v m a w =
        .ret { mutexes := w.mutexes,
               trace := w.trace ++
                 [.write l.l v (if l.pfx = "" then m else l.pfx ++ " " ++ m) a] } () := by
    intro l v m a
    rw [Write_eq]
    rfl
  refine ⟨key l v m a, ?_, ?_⟩
  · rw [key]
    exact newEvents_append _ _ _ rfl
  · intro d mu
    rw [key]
    exact newEvents_append _ _ _ rfl

/-- C2: on a logger whose mutex is free, each of `Trace`, `Debug`, `Info`, `Warn`
and `Error` returns after exactly three effects: it locks the logger's mutex,
calls the delegate's write path once with the operation's fixed level, the
effective message and the attributes unchanged, and unlocks the mutex; every
mutex cell is afterwards as it was before. -/
theorem C2_leveled_lock_write_unlock (l : logger) (m : String) (a : List Any) (w : World)
    (h : lockState w l.mu = some false) :
    l.Trace m a w =
        .ret { mutexes := w.mutexes,
               trace := w.trace ++
                 [.lock l.mu, .write l.l LevelTrace (effectiveMsg l.pfx m) a,
                  .unlock l.mu] } () ∧
      l.Debug m a w =
        .ret { mutexes := w.mutexes,
               trace := w.trace ++
                 [.lock l.mu, .write l.l LevelDebug (effectiveMsg l.pfx m) a,
                  .unlock l.mu] } () ∧
      l.Info m a w =
        .ret { mutexes := w.mutexes,
               trace := w.trace ++
                 [.lock l.mu, .write l.l LevelInfo (effectiveMsg l.pfx m) a,
                  .unlock l.mu] } () ∧
      l.Warn m a w =
        .ret { mutexes := w.mutexes,
               trace := w.trace ++
                 [.lock l.mu, .write l.l LevelWarn (effectiveMsg l.pfx m) a,
                  .unlock l.mu] } () ∧
      l.Error m a w =
        .ret { mutexes := w.mutexes,
               trace := w.trace ++
                 [.lock l.mu, .write l.l LevelError (effectiveMsg l.pfx m) a,
                  .unlock l.mu] } () ∧
      (∀ op : Leveled, op ≠ .Crit →
        lockState (l.leveled op m a w).world l.mu = lockState w l.mu) :=
  ⟨guarded_free l LevelTrace m a w h, guarded_free l LevelDebug m a w h,
    guarded_free l LevelInfo m a w h, guarded_free l LevelWarn m a w h,
    guarded_free l LevelError m a w h, by
      intro op hop
      cases op
      · exact congrArg (fun o => lockState o.world l.mu) (guarded_free l LevelTrace m a w h)
      · exact congrArg (fun o => lockState o.world l.mu) (guarded_free l LevelDebug m a w h)
      · exact congrArg (fun o => lockState o.world l.mu) (guarded_free l LevelInfo m a w h)
      · exact congrArg (fun o => lockState o.world l.mu) (guarded_free l LevelWarn m a w h)
      · exact congrArg (fun o => lockState o.world l.mu) (guarded_free l LevelError m a w h)
      · exact absurd rfl hop⟩

/-- C2, at a concrete input: a logger with prefix "[sync]" on the free mutex 0. -/
theorem C2_leveled_lock_write_unlock_witness :
    lockState ⟨[false], []⟩
        ({ l := NewLoggerWithOpts (NewTerminalHandlerWithSource .Stderr LevelInfo false) ⟨1⟩,
           mu := 0, pfx := "[sync]" } : logger).mu = some false ∧
      ({ l := NewLoggerWithOpts (NewTerminalHandlerWithSource .Stderr LevelInfo false) ⟨1⟩,
         mu := 0, pfx := "[sync]" } : logger).Info "peer connected" [.str "id", .int 7]
          ⟨[false], []⟩ =
        .ret { mutexes := [false],
               trace := [.lock 0,
                 .write (NewLoggerWithOpts
                     (NewTerminalHandlerWithSource .Stderr LevelInfo false) ⟨1⟩)
                   LevelInfo "[sync] peer connected" [.str "id", .int 7],
                 .unlock 0] } () :=
  ⟨by decide,
    (C2_leveled_lock_write_unlock
      { l := NewLoggerWithOpts (NewTerminalHandlerWithSource .Stderr LevelInfo false) ⟨1⟩,
        mu := 0, pfx := "[sync]" }
      "peer connected" [.str "id", .int 7] ⟨[false], []⟩ (by decide)).2.2.1⟩

/-! ## The critical level and the generic `Log` -/

theorem Crit_unfold (l : logger) (m : String) (a : List Any) :
    l.Crit m a = M.bind (Lock l.mu) fun _ => withDefer (Unlock l.mu)
      (M.bind (l.Write LevelCrit m a) fun _ => osExit 1) := rfl

/-- C5: `Crit(m, a)` on a logger whose mutex is free locks the mutex, calls the
delegate's write path once at the critical level with the effective message and
the attributes unchanged, and then terminates the process with exit status 1;
the write precedes the exit in the trace, no unlock occurs, and the mutex is held
in the world in which the process ends. On a held mutex the call waits without
any effect. In every world, `Crit` never returns, and whenever it terminates the
process the status is 1, the trace grew by lock, write and exit in this order,
and the mutex is held. -/
theorem C5_Crit_writes_then_exits (l : logger) (m : String) (a : List Any) (w : World) :
    (lockState w l.mu = some false →
        l.Crit m a w =
          .exited { mutexes := w.mutexes.set l.mu true,
                    trace := w.trace ++
                      [.lock l.mu, .write l.l LevelCrit (effectiveMsg l.pfx m) a,
                       .exit 1] } 1 ∧
        lockState (l.Crit m a w).world l.mu = some true) ∧
      (lockState w l.mu = some true → l.Crit m a w = .blocked w) ∧
      (∀ w2 : World, l.Crit m a w ≠ .ret w2 ()) ∧
      (∀ (w2 : World) (c : Int), l.Crit m a w = .exited w2 c →
        c = 1 ∧
        w2.trace = w.trace ++
          [.lock l.mu, .write l.l LevelCrit (effectiveMsg l.pfx m) a, .exit 1] ∧
        lockState w2 l.mu = some true) := by
  have hfree : lockState w l.mu = some false →
      lockState (l.Crit m a w).world l.mu = some true := by
    intro h
    rw [Crit_free l m a w h]
    exact getElem?_set_same w.mutexes l.mu false true h
  refine ⟨fun h => ⟨Crit_free l m a w h, hfree h⟩, ?_, ?_, ?_⟩
  · intro h
    rw [Crit_unfold]
    exact guarded_held l _ w h
  · intro w2
    rcases hs : lockState w l.mu with _ | _ | _
    · unfold lockState at hs
      simp [Crit_unfold, M.bind, Lock, hs]
    · rw [Crit_free l m a w hs]
      simp
    · rw [Crit_unfold, guarded_held l _ w hs]
      simp
  · intro w2 c hex
    rcases hs : lockState w l.mu with _ | _ | _
    · unfold lockState at hs
      simp [Crit_unfold, M.bind, Lock, hs] at hex
    · have hh := hfree hs
      rw [Crit_free l m a w hs] at hex hh
      injection hex with hw hc
      subst hw
      exact ⟨hc.symm, rfl, hh⟩
    · rw [Crit_unfold, guarded_held l _ w hs] at hex
      simp at hex

/-- C5, at a concrete input: on the free mutex 0 a logger with prefix "[x]"
terminates the process with status 1 after lock and write, the mutex held. -/
theorem C5_Crit_writes_then_exits_witness :
    lockState ⟨[false], []⟩ 0 = some false ∧
      ({ l := NewLoggerWithOpts (NewTerminalHandlerWithSource .Stderr LevelInfo false) ⟨1⟩,
         mu := 0, pfx := "[x]" } : logger).Crit "disk gone" [] ⟨[false], []⟩ =
        .exited { mutexes := [true],
                  trace := [.lock 0,
                    .write (NewLoggerWithOpts
                        (NewTerminalHandlerWithSource .Stderr LevelInfo false) ⟨1⟩)
                      LevelCrit "[x] disk gone" [],
                    .exit 1] } 1 :=
  ⟨by decide,
    ((C5_Crit_writes_then_exits
      { l := NewLoggerWithOpts (NewTerminalHandlerWithSource .Stderr LevelInfo false) ⟨1⟩,
        mu := 0, pfx := "[x]" }
      "disk gone" [] ⟨[false], []⟩).1 (by decide)).1⟩

theorem writesOf_guarded (mu : Nat) (e : Event) (h : e.isWrite = true) :
    writesOf [.lock mu, e, .unlock mu] = [e] := by
  cases e <;> simp_all [writesOf, List.filter, Event.isWrite]

theorem writesOf_crit (mu : Nat) (e : Event) (c : Int) (h : e.isWrite = true) :
    writesOf [.lock mu, e, .exit c] = [e] := by
  cases e <;> simp_all [writesOf, List.filter, Event.isWrite]

theorem leveled_writes (l : logger) (op : Leveled) (m : String) (a : List Any) (w : World)
    (h : lockState w l.mu = some false) :
    writesOf (newEvents w (l.leveled op m a w)) =
      [.write l.l op.level (effectiveMsg l.pfx m) a] := by
  cases op
  case Crit =>
    show writesOf (newEvents w (l.Crit m a w)) = _
    rw [Crit_free l m a w h, newEvents_exited]
    exact writesOf_crit _ _ _ rfl
  all_goals
    first
    | (show writesOf (newEvents w
          ((M.bind (Lock l.mu) fun _ => withDefer (Unlock l.mu) (l.Write _ m a)) w)) = _
       rw [guarded_free l _ m a w h, newEvents_ret]
       exact writesOf_guarded _ _ rfl)

theorem invoke_unit_exited (body : M Unit) (w w2 : World) (c : Int)
    (h : (M.bind body fun _ => M.pure Result.unit) w = .exited w2 c) :
    body w = .exited w2 c := by
  unfold M.bind at h
  cases hb : body w <;> simp [hb, M.pure] at h ⊢
  exact h

theorem guarded_not_exited (l : logger) (v : Level) (m : String) (a : List Any)
    (w w2 : World) (c : Int) :
    (M.bind (Lock l.mu) fun _ => withDefer (Unlock l.mu) (l.Write v m a)) w ≠
      .exited w2 c := by
  rcases hs : lockState w l.mu with _ | _ | _
  · unfold lockState at hs
    simp [M.bind, Lock, hs]
  · rw [guarded_free l v m a w hs]
    simp
  · rw [guarded_held l _ w hs]
    simp

/-- C10: `Log(v, m, a)` returns after exactly one call of the delegate's write
path, with level `v`, the effective message and the attributes unchanged, in
every world: it neither locks nor unlocks (the mutex cells are as before, and
the call returns also when the logger's mutex is held, where each leveled
operation waits). On a free mutex the leveled operation with fixed level `v`
forwards the same single record. `Log` never terminates the process, also at
the critical level, and among all methods only `Crit` ever does. -/
theorem C10_Log_unguarded_same_record (l : logger) (v : Level) (m : String) (a : List Any)
    (w : World) :
    l.Log v m a w =
        .ret { mutexes := w.mutexes,
               trace := w.trace ++ [.write l.l v (effectiveMsg l.pfx m) a] } () ∧
      (∀ op : Leveled, lockState w l.mu = some false →
        writesOf (newEvents w (l.leveled op m a w)) =
          writesOf (newEvents w (l.Log op.level m a w))) ∧
      (∀ op : Leveled, lockState w l.mu = some true →
        l.leveled op m a w = .blocked w ∧
        l.Log op.level m a w =
          .ret { mutexes := w.mutexes,
                 trace := w.trace ++ [.write l.l op.level (effectiveMsg l.pfx m) a] } ()) ∧
      (∀ (w2 : World) (c : Int), l.Log LevelCrit m a w ≠ .exited w2 c) ∧
      (∀ (call : Call) (w1 w2 : World) (c : Int), l.invoke call w1 = .exited w2 c →
        ∃ m1 a1, call = .Crit m1 a1) := by
  have hlog : ∀ (v : Level) (w : World), l.Log v m a w =
      .ret { mutexes := w.mutexes,
             trace := w.trace ++ [.write l.l v (effectiveMsg l.pfx m) a] } () := by
    intro v w
    exact Write_eq l v m a w
  refine ⟨hlog v w, ?_, ?_, ?_, ?_⟩
  · intro op h
    rw [leveled_writes l op m a w h, hlog, newEvents_ret]
    rfl
  · intro op h
    refine ⟨?_, hlog _ _⟩
    cases op <;> exact guarded_held l _ w h
  · intro w2 c
    rw [hlog]
    simp
  · intro call w1 w2 c hex
    cases call with
    | Crit m1 a1 => exact ⟨m1, a1, rfl⟩
    | With ctx => simp [logger.invoke] at hex
    | New ctx => simp [logger.invoke] at hex
    | Enabled ctx level => simp [logger.invoke] at hex
    | Handler => simp [logger.invoke] at hex
    | Log level msg ctx =>
      have hb : l.Log level msg ctx w1 = .exited w2 c :=
        invoke_unit_exited (l.Log level msg ctx) w1 w2 c hex
      rw [show l.Log level msg ctx w1 = _ from Write_eq l level msg ctx w1] at hb
      simp at hb
    | Write level msg ctx =>
      have hb : l.Write level msg ctx w1 = .exited w2 c :=
        invoke_unit_exited (l.Write level msg ctx) w1 w2 c hex
      rw [Write_eq] at hb
      simp at hb
    | Trace msg ctx => exact absurd (invoke_unit_exited _ _ _ _ hex) (guarded_not_exited l _ msg ctx w1 w2 c)
    | Debug msg ctx => exact absurd (invoke_unit_exited _ _ _ _ hex) (guarded_not_exited l _ msg ctx w1 w2 c)
    | Info msg ctx => exact absurd (invoke_unit_exited _ _ _ _ hex) (guarded_not_exited l _ msg ctx w1 w2 c)
    | Warn msg ctx => exact absurd (invoke_unit_exited _ _ _ _ hex) (guarded_not_exited l _ msg ctx w1 w2 c)
    | Error msg ctx => exact absurd (invoke_unit_exited _ _ _ _ hex) (guarded_not_exited l _ msg ctx w1 w2 c)

/-- C10, at a concrete input: with the mutex held, `Info` waits while `Log` at
the level of `Info` returns with the record written. -/
theorem C10_Log_unguarded_same_record_witness :
    lockState ⟨[true], []⟩ 0 = some true ∧
      ({ l := NewLoggerWithOpts (NewTerminalHandlerWithSource .Stderr LevelInfo false) ⟨1⟩,
         mu := 0, pfx := "[x]" } : logger).Info "pool full" [] ⟨[true], []⟩ =
        .blocked ⟨[true], []⟩ ∧
      ({ l := NewLoggerWithOpts (NewTerminalHandlerWithSource .Stderr LevelInfo false) ⟨1⟩,
         mu := 0, pfx := "[x]" } : logger).Log LevelInfo "pool full" [] ⟨[true], []⟩ =
        .ret { mutexes := [true],
               trace := [.write (NewLoggerWithOpts
                   (NewTerminalHandlerWithSource .Stderr LevelInfo false) ⟨1⟩)
                 LevelInfo "[x] pool full" []] } () :=
  ⟨by decide,
    (C10_Log_unguarded_same_record
      { l := NewLoggerWithOpts (NewTerminalHandlerWithSource .Stderr LevelInfo false) ⟨1⟩,
        mu := 0, pfx := "[x]" }
      LevelInfo "pool full" [] ⟨[true], []⟩).2.2.1 .Info (by decide)⟩

/-! ## Construction -/

theorem Logger_eq (t : TestingT) (level : Level) (ps : List String) (w : World) :
    Logger t level ps w =
      .ret { mutexes := w.mutexes ++ [false], trace := w.trace }
        { l := NewLoggerWithOpts (NewTerminalHandlerWithSource .Stderr level false)
                { SkipCallers := 1 },
          mu := w.mutexes.length,
          pfx := ps.headD "" } := by
  cases ps with
  | nil => rfl
  | cons p rest =>
    show (M.bind newMutex fun mu => M.pure _) w = _
    simp [M.bind, newMutex, M.pure]

/-- C6: `Logger(t, level, ps...)` returns a logger whose prefix is the first
element of `ps`, or the empty string when `ps` is empty, further elements being
ignored; its mutex is a cell that was not allocated before, is free, and leaves
every earlier cell as it was. `Logger(t, level, "")` returns the same logger as
`Logger(t, level)`, and a write through it forwards the message as it is. -/
theorem C6_Logger_first_pfx_fresh_mutex (t : TestingT) (level : Level) (ps : List String)
    (w : World) :
    Logger t level ps w =
        .ret { mutexes := w.mutexes ++ [false], trace := w.trace }
          { l := NewLoggerWithOpts (NewTerminalHandlerWithSource .Stderr level false)
                  { SkipCallers := 1 },
            mu := w.mutexes.length,
            pfx := ps.headD "" } ∧
      (∀ (p : String) (rest : List String),
        Logger t level (p :: rest) w = Logger t level [p] w) ∧
      lockState w w.mutexes.length = none ∧
      lockState (Logger t level ps w).world w.mutexes.length = some false ∧
      (∀ i : Nat, i < w.mutexes.length →
        lockState (Logger t level ps w).world i = lockState w i) ∧
      Logger t level [""] w = Logger t level [] w ∧
      (∀ (w1 : World) (lg : logger), Logger t level [""] w = .ret w1 lg →
        ∀ (v : Level) (m : String) (a : List Any) (w2 : World),
          lg.Write v m a w2 =
            .ret { mutexes := w2.mutexes, trace := w2.trace ++ [.write lg.l v m a] } ()) := by
  refine ⟨Logger_eq t level ps w, ?_, ?_, ?_, ?_, ?_, ?_⟩
  · intro p rest
    rw [Logger_eq, Logger_eq]
    rfl
  · simp [lockState]
  · rw [Logger_eq]
    simp [lockState, Outcome.world]
  · intro i hi
    rw [Logger_eq]
    simp [lockState, Outcome.world, List.getElem?_append_left hi]
  · rw [Logger_eq, Logger_eq]
    rfl
  · intro w1 lg hlg v m a w2
    rw [Logger_eq] at hlg
    injection hlg with _ hl
    subst hl
    rw [Write_eq]
    rfl

/-- C6, at a concrete input: the logger built with the one prefix "" in a world
with one cell. -/
theorem C6_Logger_first_pfx_fresh_mutex_witness :
    Logger ⟨0⟩ LevelInfo [""] ⟨[true], []⟩ =
        .ret ⟨[true, false], []⟩
          { l := NewLoggerWithOpts (NewTerminalHandlerWithSource .Stderr LevelInfo false) ⟨1⟩,
            mu := 1, pfx := "" } ∧
      ({ l := NewLoggerWithOpts (NewTerminalHandlerWithSource .Stderr LevelInfo false) ⟨1⟩,
         mu := 1, pfx := "" } : logger).Write LevelWarn "pool full" [] ⟨[true, false], []⟩ =
        .ret { mutexes := [true, false],
               trace := [.write (NewLoggerWithOpts
                   (NewTerminalHandlerWithSource .Stderr LevelInfo false) ⟨1⟩)
                 LevelWarn "pool full" []] } () :=
  ⟨by decide,
    (C6_Logger_first_pfx_fresh_mutex ⟨0⟩ LevelInfo [""] ⟨[true], []⟩).2.2.2.2.2.2
      ⟨[true, false], []⟩ _ (by decide) LevelWarn "pool full" [] ⟨[true, false], []⟩⟩

theorem Write_newEvents (l : logger) (v : Level) (m : String) (a : List Any) (w : World) :
    newEvents w (l.Write v m a w) = [.write l.l v (effectiveMsg l.pfx m) a] := by
  rw [Write_eq]
  exact newEvents_append _ _ _ rfl

theorem derive_handler (l : logger) (chain : List Derivation) :
    (l.derive chain).l.h = l.l.h := by
  induction chain generalizing l with
  | nil => rfl
  | cons c rest ih =>
    show ((l.step c).derive rest).l.h = l.l.h
    rw [ih]
    cases c <;> rfl

/-- C7: the code at the input of the claim. For every test handle `t`, level
and prefixes, the logger that `Logger` returns has a handler bound to the
process-wide standard error stream, which is not the log of `t`; `t` has no
influence on the result, and every logger derived from it forwards its records
to a delegate with that same handler. -/
theorem C7_Logger_writes_to_stderr (t : TestingT) (level : Level) (ps : List String)
    (w : World) :
    ∃ (w1 : World) (lg : logger), Logger t level ps w = .ret w1 lg ∧
      lg.Handler.wr = Writer.Stderr ∧
      lg.Handler.wr ≠ Writer.TestLog t ∧
      (∀ t2 : TestingT, Logger t2 level ps w = Logger t level ps w) ∧
      (∀ (chain : List Derivation) (v : Level) (m : String) (a : List Any) (w2 : World),
        ∃ (d : Delegate) (msg : String),
          newEvents w2 ((lg.derive chain).Write v m a w2) = [.write d v msg a] ∧
          d.h.wr = Writer.Stderr) := by
  refine ⟨_, _, Logger_eq t level ps w, rfl, ?_, ?_, ?_⟩
  · simp [logger.Handler, Delegate.Handler, NewLoggerWithOpts, NewTerminalHandlerWithSource]
  · intro t2
    rw [Logger_eq, Logger_eq]
  · intro chain v m a w2
    exact ⟨_, _, Write_newEvents _ v m a w2, congrArg TerminalHandler.wr (derive_handler _ chain)⟩

/-! ## Derivation -/

theorem derive_fields (l : logger) (chain : List Derivation) :
    (l.derive chain).mu = l.mu ∧ (l.derive chain).pfx = l.pfx ∧
      (l.derive chain).l = l.l.With (chainAttrs chain) := by
  induction chain generalizing l with
  | nil =>
    refine ⟨rfl, rfl, ?_⟩
    show l.l = { l.l with bound := l.l.bound ++ [] }
    simp
  | cons c rest ih =>
    obtain ⟨h1, h2, h3⟩ := ih (l.step c)
    have hs : (l.step c).mu = l.mu ∧ (l.step c).pfx = l.pfx ∧
        (l.step c).l = l.l.With c.ctx := by
      cases c <;> exact ⟨rfl, rfl, rfl⟩
    refine ⟨?_, ?_, ?_⟩
    · exact h1.trans hs.1
    · exact h2.trans hs.2.1
    · show ((l.step c).derive rest).l = _
      rw [h3, hs.2.2]
      simp [Delegate.With, chainAttrs, List.append_assoc]

/-- C3: `With(ctx)` and `New(ctx)` return the same logger: its mutex is the
address of the receiver's mutex, its prefix is the receiver's prefix, its
delegate is the receiver's delegate derived with `ctx`; neither call changes the
world. Hence a logger reached by any finite chain of `With` / `New` calls has
the mutex and the prefix of the root, its delegate is the root's delegate
derived with the attributes of the chain, and a write through it forwards the
message with the root's prefix once. `With("module", "txpool")` on a logger with
prefix "[x]", then `Warn("pool full")`, forwards "[x] pool full" to the delegate
derived with ("module", "txpool"). -/
theorem C3_With_New_share_mutex_and_pfx (l : logger) (ctx : List Any) (w : World) :
    l.With ctx = l.New ctx ∧
      (l.With ctx).mu = l.mu ∧
      (l.With ctx).pfx = l.pfx ∧
      (l.With ctx).l = l.l.With ctx ∧
      l.invoke (.With ctx) w = .ret w (.logger (l.With ctx)) ∧
      l.invoke (.New ctx) w = .ret w (.logger (l.With ctx)) ∧
      (∀ chain : List Derivation,
        (l.derive chain).mu = l.mu ∧ (l.derive chain).pfx = l.pfx ∧
        (l.derive chain).l = l.l.With (chainAttrs chain)) ∧
      (∀ (chain : List Derivation) (v : Level) (m : String) (a : List Any) (w2 : World),
        (l.derive chain).Write v m a w2 =
          .ret { mutexes := w2.mutexes,
                 trace := w2.trace ++
                   [.write (l.l.With (chainAttrs chain)) v
                      (if l.pfx = "" then m else l.pfx ++ " " ++ m) a] } ()) ∧
      (∀ (d : Delegate) (mu : Nat) (w2 : World), lockState w2 mu = some false →
        (({ l := d, mu := mu, pfx := "[x]" } : logger).With
            [.str "module", .str "txpool"]).Warn "pool full" [] w2 =
          .ret { mutexes := w2.mutexes,
                 trace := w2.trace ++
                   [.lock mu,
                    .write (d.With [.str "module", .str "txpool"]) LevelWarn
                      "[x] pool full" [],
                    .unlock mu] } ()) := by
  refine ⟨rfl, rfl, rfl, rfl, rfl, rfl, derive_fields l, ?_, ?_⟩
  · intro chain v m a w2
    obtain ⟨_, h2, h3⟩ := derive_fields l chain
    rw [Write_eq, h2, h3]
    rfl
  · intro d mu w2 hfree
    exact guarded_free
      (({ l := d, mu := mu, pfx := "[x]" } : logger).With [.str "module", .str "txpool"])
      LevelWarn "pool full" [] w2 hfree

/-- C3, at the input of the spec: `With("module", "txpool")` on a logger with
prefix "[x]" built on the free mutex 0, then `Warn("pool full")`. -/
theorem C3_With_New_share_mutex_and_pfx_witness :
    lockState ⟨[false], []⟩ 0 = some false ∧
      (({ l := NewLoggerWithOpts (NewTerminalHandlerWithSource .Stderr LevelInfo false) ⟨1⟩,
          mu := 0, pfx := "[x]" } : logger).With
          [.str "module", .str "txpool"]).Warn "pool full" [] ⟨[false], []⟩ =
        .ret { mutexes := [false],
               trace := [.lock 0,
                 .write ((NewLoggerWithOpts
                     (NewTerminalHandlerWithSource .Stderr LevelInfo false) ⟨1⟩).With
                     [.str "module", .str "txpool"])
                   LevelWarn "[x] pool full" [],
                 .unlock 0] } () :=
  ⟨by decide,
    (C3_With_New_share_mutex_and_pfx
      { l := NewLoggerWithOpts (NewTerminalHandlerWithSource .Stderr LevelInfo false) ⟨1⟩,
        mu := 0, pfx := "[x]" } [] ⟨[false], []⟩).2.2.2.2.2.2.2.2
      (NewLoggerWithOpts (NewTerminalHandlerWithSource .Stderr LevelInfo false) ⟨1⟩) 0
      ⟨[false], []⟩ (by decide)⟩

/-! ## Output lines -/

theorem outputOf_write (d : Delegate) (v : Level) (msg : String) (a : List Any) :
    outputOf [.write d v msg a] =
      if v < d.h.lvl then [] else [{ wr := d.h.wr, msg := msg, attrs := d.bound ++ a }] := by
  unfold outputOf Delegate.render
  by_cases h : v < d.h.lvl <;> simp [List.filterMap, h]

theorem outputOf_eq_writesOf (es : List Event) : outputOf (writesOf es) = outputOf es := by
  induction es with
  | nil => rfl
  | cons e rest ih =>
    cases e <;> simp_all [outputOf, writesOf, List.filter, List.filterMap, Event.isWrite]

/-- C4: let `lg` be the logger built by `Logger` with minimum level `L` and
prefixes `ps`. A write of message `m` with attributes `a` at level `v` through
`lg` (by `Write`, by `Log`, or by the leveled operation with fixed level `v` on
a free mutex) produces no output line when `v < L`, and otherwise exactly one
line, on the standard error stream, whose text is the effective message (the
first prefix, a space and `m`, or `m` when there is no prefix or it is empty)
and whose attributes are `a`. -/
theorem C4_output_filtered_by_minimum_level (t : TestingT) (L : Level) (ps : List String)
    (w w1 : World) (lg : logger) (hlg : Logger t L ps w = .ret w1 lg)
    (v : Level) (m : String) (a : List Any) (w2 : World) :
    outputOf (newEvents w2 (lg.Write v m a w2)) =
        (if v < L then []
         else [{ wr := Writer.Stderr, msg := effectiveMsg (ps.headD "") m, attrs := a }]) ∧
      outputOf (newEvents w2 (lg.Log v m a w2)) =
        (if v < L then []
         else [{ wr := Writer.Stderr, msg := effectiveMsg (ps.headD "") m, attrs := a }]) ∧
      (∀ op : Leveled, lockState w2 lg.mu = some false →
        outputOf (newEvents w2 (lg.leveled op m a w2)) =
          (if op.level < L then []
           else [{ wr := Writer.Stderr, msg := effectiveMsg (ps.headD "") m,
                   attrs := a }])) := by
  rw [Logger_eq] at hlg
  injection hlg with _ hl
  subst hl
  have hw : ∀ v : Level, outputOf [.write
      (NewLoggerWithOpts (NewTerminalHandlerWithSource .Stderr L false) { SkipCallers := 1 })
      v (effectiveMsg (ps.headD "") m) a] =
      (if v < L then []
       else [{ wr := Writer.Stderr, msg := effectiveMsg (ps.headD "") m, attrs := a }]) := by
    intro v
    rw [outputOf_write]
    rfl
  refine ⟨?_, ?_, ?_⟩
  · rw [Write_newEvents]
    exact hw v
  · show outputOf (newEvents w2 (logger.Write _ v m a w2)) = _
    rw [Write_newEvents]
    exact hw v
  · intro op hfree
    rw [← outputOf_eq_writesOf, leveled_writes _ op m a w2 hfree]
    exact hw op.level

/-- C4, at the input of the spec: minimum level Info and prefix "[sync]";
`Info("peer connected", "id", 7)` yields one line with "[sync] peer connected"
and the attributes, `Debug("heartbeat")` yields none. -/
theorem C4_output_filtered_by_minimum_level_witness :
    Logger ⟨0⟩ LevelInfo ["[sync]"] ⟨[], []⟩ =
        .ret ⟨[false], []⟩
          { l := NewLoggerWithOpts (NewTerminalHandlerWithSource .Stderr LevelInfo false) ⟨1⟩,
            mu := 0, pfx := "[sync]" } ∧
      outputOf (newEvents ⟨[false], []⟩
          (({ l := NewLoggerWithOpts (NewTerminalHandlerWithSource .Stderr LevelInfo false) ⟨1⟩,
              mu := 0, pfx := "[sync]" } : logger).Info "peer connected"
            [.str "id", .int 7] ⟨[false], []⟩)) =
        [{ wr := Writer.Stderr, msg := "[sync] peer connected",
           attrs := [.str "id", .int 7] }] ∧
      outputOf (newEvents ⟨[false], []⟩
          (({ l := NewLoggerWithOpts (NewTerminalHandlerWithSource .Stderr LevelInfo false) ⟨1⟩,
              mu := 0, pfx := "[sync]" } : logger).Debug "heartbeat" [] ⟨[false], []⟩)) =
        [] :=
  ⟨by decide,
    (C4_output_filtered_by_minimum_level ⟨0⟩ LevelInfo ["[sync]"] ⟨[], []⟩ ⟨[false], []⟩ _
      (by decide) LevelInfo "peer connected" [.str "id", .int 7] ⟨[false], []⟩).2.2
      .Info (by decide),
    (C4_output_filtered_by_minimum_level ⟨0⟩ LevelInfo ["[sync]"] ⟨[], []⟩ ⟨[false], []⟩ _
      (by decide) LevelDebug "heartbeat" [] ⟨[false], []⟩).2.2
      .Debug (by decide)⟩

/-- C8: `Enabled(ctx, v)` returns true for every logger, context handle and
level; in particular for the logger built by `Logger` with minimum level `L` and
a level `v < L`, at which a write produces no output line. -/
theorem C8_Enabled_always_true (l : logger) (ctx : Context) (v : Level) :
    l.Enabled ctx v = true ∧
      l.invoke (.Enabled ctx v) = (fun w => .ret w (.bool true)) ∧
      (∀ (t : TestingT) (L : Level) (ps : List String) (w w1 : World) (lg : logger),
        Logger t L ps w = .ret w1 lg → v < L →
          lg.Enabled ctx v = true ∧
          ∀ (m : String) (a : List Any) (w2 : World),
            outputOf (newEvents w2 (lg.Write v m a w2)) = []) := by
  refine ⟨rfl, rfl, ?_⟩
  intro t L ps w w1 lg hlg hv
  refine ⟨rfl, ?_⟩
  intro m a w2
  rw [Logger_eq] at hlg
  injection hlg with _ hl
  subst hl
  rw [Write_newEvents, outputOf_write]
  exact if_pos hv

/-- C8, at a concrete input: minimum level Info, queried at the level of Debug. -/
theorem C8_Enabled_always_true_witness :
    LevelDebug < LevelInfo ∧
      ({ l := NewLoggerWithOpts (NewTerminalHandlerWithSource .Stderr LevelInfo false) ⟨1⟩,
         mu := 0, pfx := "[sync]" } : logger).Enabled ⟨0⟩ LevelDebug = true ∧
      outputOf (newEvents ⟨[false], []⟩
          (({ l := NewLoggerWithOpts (NewTerminalHandlerWithSource .Stderr LevelInfo false) ⟨1⟩,
              mu := 0, pfx := "[sync]" } : logger).Write LevelDebug "heartbeat" []
            ⟨[false], []⟩)) = [] :=
  ⟨by decide,
    ((C8_Enabled_always_true
        { l := NewLoggerWithOpts (NewTerminalHandlerWithSource .Stderr LevelInfo false) ⟨1⟩,
          mu := 0, pfx := "[sync]" } ⟨0⟩ LevelDebug).2.2
      ⟨0⟩ LevelInfo ["[sync]"] ⟨[], []⟩ ⟨[false], []⟩ _ (by decide) (by decide)).1,
    ((C8_Enabled_always_true
        { l := NewLoggerWithOpts (NewTerminalHandlerWithSource .Stderr LevelInfo false) ⟨1⟩,
          mu := 0, pfx := "[sync]" } ⟨0⟩ LevelDebug).2.2
      ⟨0⟩ LevelInfo ["[sync]"] ⟨[], []⟩ ⟨[false], []⟩ _ (by decide) (by decide)).2
      "heartbeat" [] ⟨[false], []⟩⟩

/-! ## Two threads: the actions are those of the methods -/

theorem program_shape (l : logger) (op : Leveled) (m : String) (a : List Any) :
    leveledShape l.mu (l.program op m a) := by
  cases op
  case Crit => exact ⟨_, _, _, _, _, rfl, Or.inr rfl⟩
  all_goals exact ⟨_, _, _, _, _, rfl, Or.inl rfl⟩

theorem bind_pure_unit (m : M Unit) (w : World) :
    (M.bind m fun _ => M.pure ()) w = m w := by
  unfold M.bind M.pure
  cases m w <;> rfl

theorem withDefer_eq_bind (d body : M Unit) (w : World) :
    withDefer d body w = (M.bind body fun _ => d) w := by
  unfold withDefer M.bind
  cases body w <;> rfl

theorem bind_congr_fun {α β : Type} (m : M α) (f g : α → M β) (w : World)
    (h : ∀ (x : α) (w1 : World), f x w1 = g x w1) : M.bind m f w = M.bind m g w := by
  unfold M.bind
  cases m w <;> simp [h]

/-- Run by a thread that is alone, the actions of a leveled operation end as the
method of the source does, in every world. -/
theorem program_runs_as_method (l : logger) (op : Leveled) (m : String) (a : List Any)
    (w : World) : runActions (l.program op m a) w = l.leveled op m a w := by
  have hw : ∀ v : Level, l.Write v m a =
      (l.l.Write v (if l.pfx ≠ "" then l.pfx ++ " " ++ m else m) a) := fun _ => rfl
  cases op
  case Crit =>
    show _ = (M.bind (Lock l.mu) fun _ => withDefer (Unlock l.mu)
      (M.bind (l.Write LevelCrit m a) fun _ => osExit 1)) w
    rw [hw]
    apply bind_congr_fun
    intro _ w1
    rw [withDefer_eq_bind]
    simp [runActions, Action.run, M.bind, Delegate.Write, osExit, M.pure]
  all_goals
    show _ = (M.bind (Lock l.mu) fun _ => withDefer (Unlock l.mu) (l.Write _ m a)) w
    rw [hw]
    apply bind_congr_fun
    intro _ w1
    rw [withDefer_eq_bind]
    apply bind_congr_fun
    intro _ w2
    exact bind_pure_unit (Unlock l.mu) w2

/-- Run by a thread that is alone, the actions of the generic `Log` end as the
method of the source does. -/
theorem programLog_runs_as_Log (l : logger) (v : Level) (m : String) (a : List Any)
    (w : World) : runActions (l.programLog v m a) w = l.Log v m a w :=
  bind_pure_unit (l.Write v m a) w

/-! ## Two threads: the invariant -/

theorem Inv_init (mu : Nat) (pa pb : List Action) (mutexes : List Bool)
    (hfree : mutexes[mu]? = some false) : Inv mu pa pb (Sys.init mutexes pa pb) := by
  refine ⟨rfl, rfl, by simp [Sys.init], by simp [Sys.init], rfl, Or.inr ⟨?_, ?_⟩⟩
  · simpa [Sys.init, holds] using hfree
  · simp [Sys.init, holds]

theorem Inv_step (mu : Nat) (pa pb : List Action) (s : Sys) (t : Tid)
    (hpa : leveledShape mu pa) (hpb : leveledShape mu pb) (h : Inv mu pa pb s) :
    Inv mu pa pb (s.step t) := by
  obtain ⟨da, va, ma, aa, la, rfl, hla⟩ := hpa
  obtain ⟨db, vb, mb, ab, lb, rfl, hlb⟩ := hpb
  obtain ⟨ms, halted, ⟨pa1, pca⟩, ⟨pb1, pcb⟩, log⟩ := s
  obtain ⟨h1, h2, h3, h4, h5, h6⟩ := h
  simp only at h1 h2 h3 h4 h5 h6
  subst h1 h2
  cases halted with
  | true =>
    simp only [Sys.step, if_true]
    exact ⟨rfl, rfl, h3, h4, h5, h6⟩
  | false =>
    simp only [Bool.false_eq_true, false_or] at h6
    obtain ⟨h6, h7⟩ := h6
    cases t
    · interval_cases pca <;> interval_cases pcb <;>
        rcases hla with rfl | rfl <;>
        simp_all [Inv, Sys.step, Sys.thread, Sys.advance, holds, writerOf, scan,
          List.foldl_append, getElem?_set_same]
    · interval_cases pcb <;> interval_cases pca <;>
        rcases hlb with rfl | rfl <;>
        simp_all [Inv, Sys.step, Sys.thread, Sys.advance, holds, writerOf, scan,
          List.foldl_append, getElem?_set_same]

theorem Inv_run (mu : Nat) (pa pb : List Action) (schedule : List Tid) (s : Sys)
    (hpa : leveledShape mu pa) (hpb : leveledShape mu pb) (h : Inv mu pa pb s) :
    Inv mu pa pb (s.run schedule) := by
  induction schedule generalizing s with
  | nil => exact h
  | cons t rest ih => exact ih (s.step t) (Inv_step mu pa pb s t hpa hpb h)

/-! ## Two threads: what a log without overlap looks like -/

theorem foldl_scan_none (es : List (Tid × Action)) : es.foldl scan none = none := by
  induction es with
  | nil => rfl
  | cons e rest ih => exact ih

/-- While a thread is inside a write, reading on without its `writeEnd` either
keeps it inside or finds an overlap. -/
theorem foldl_scan_inside (t : Tid) (mid : List (Tid × Action))
    (hmid : (t, Action.writeEnd) ∉ mid) :
    mid.foldl scan (some (some t)) = some (some t) ∨ mid.foldl scan (some (some t)) = none := by
  induction mid with
  | nil => exact Or.inl rfl
  | cons e rest ih =>
    have hrest : (t, Action.writeEnd) ∉ rest := fun hm => hmid (List.mem_cons_of_mem _ hm)
    have he : e ≠ (t, Action.writeEnd) := fun hm => hmid (hm ▸ List.mem_cons_self _ _)
    obtain ⟨t2, act⟩ := e
    have hstep : scan (some (some t)) (t2, act) = some (some t) ∨
        scan (some (some t)) (t2, act) = none := by
      cases act with
      | writeEnd =>
        by_cases ht : t2 = t
        · exact absurd (by rw [ht]) he
        · right
          have : ¬ t = t2 := fun hh => ht hh.symm
          simp [scan, this]
      | writeBegin d v m a => right; simp [scan]
      | lock mu => left; rfl
      | unlock mu => left; rfl
      | exit c => left; rfl
    rw [List.foldl_cons]
    rcases hstep with hs | hs
    · rw [hs]
      exact ih hrest
    · rw [hs]
      exact Or.inr (foldl_scan_none rest)

/-- In a log without overlap, between the entries of two writes lies the exit of
the first from the write path. -/
theorem serialized_between (log pre mid post : List (Tid × Action)) (t1 t2 : Tid)
    (d1 d2 : Delegate) (v1 v2 : Level) (m1 m2 : String) (a1 a2 : List Any)
    (hser : serialized log = true)
    (hlog : log = pre ++ (t1, Action.writeBegin d1 v1 m1 a1) :: mid ++
      (t2, Action.writeBegin d2 v2 m2 a2) :: post) :
    (t1, Action.writeEnd) ∈ mid := by
  by_contra hmid
  subst hlog
  unfold serialized at hser
  rw [List.foldl_append, List.foldl_cons, List.foldl_append, List.foldl_cons] at hser
  have hfirst : scan (List.foldl scan (some none) pre) (t1, Action.writeBegin d1 v1 m1 a1) =
      some (some t1) ∨
      scan (List.foldl scan (some none) pre) (t1, Action.writeBegin d1 v1 m1 a1) = none := by
    rcases hp : List.foldl scan (some none) pre with _ | _ | t
    · right; rfl
    · left; rfl
    · right; rfl
  rcases hfirst with hf | hf
  · rw [hf] at hser
    rcases foldl_scan_inside t1 mid hmid with hm | hm
    · rw [hm] at hser
      have : scan (some (some t1)) (t2, Action.writeBegin d2 v2 m2 a2) = none := rfl
      rw [this, foldl_scan_none] at hser
      simp at hser
    · rw [hm] at hser
      have : scan none (t2, Action.writeBegin d2 v2 m2 a2) = none := rfl
      rw [this, foldl_scan_none] at hser
      simp at hser
  · rw [hf, foldl_scan_none] at hser
    have : scan none (t2, Action.writeBegin d2 v2 m2 a2) = none := rfl
    rw [this, foldl_scan_none] at hser
    simp at hser

/-! ## Two threads: serialization -/

/-- The check `serialized` is not satisfied by every log: two threads that
write through the unguarded `Log` overlap under the alternating schedule. -/
theorem Log_can_overlap :
    serialized ((Sys.init [false]
        (({ l := NewLoggerWithOpts (NewTerminalHandlerWithSource .Stderr LevelInfo false) ⟨1⟩,
            mu := 0, pfx := "[x]" } : logger).programLog LevelInfo "one" [])
        (({ l := NewLoggerWithOpts (NewTerminalHandlerWithSource .Stderr LevelInfo false) ⟨1⟩,
            mu := 0, pfx := "[x]" } : logger).programLog LevelInfo "two" [])).run
      [.A, .B, .A, .B]).log = false := by
  decide

/-- C9: two threads each run one leveled operation (`Trace`, `Debug`, `Info`,
`Warn`, `Error` or `Crit`) through loggers derived from a common root by any
chains of `With` / `New` (the empty chain gives the root itself), the root's
mutex being free at the start. The delegate's write path is entered and left by
separate actions, and the scheduler picks the thread of every step. Under every
schedule the log of the process has no overlap of two writes: no write is
entered while another is under way, and between the entries of any two writes
lies the exit of the first. -/
theorem C9_leveled_writes_never_overlap (root : logger) (chainA chainB : List Derivation)
    (opA opB : Leveled) (mA mB : String) (aA aB : List Any) (mutexes : List Bool)
    (hfree : mutexes[root.mu]? = some false) (schedule : List Tid) :
    serialized ((Sys.init mutexes ((root.derive chainA).program opA mA aA)
        ((root.derive chainB).program opB mB aB)).run schedule).log = true ∧
      (∀ (pre mid post : List (Tid × Action)) (t1 t2 : Tid) (d1 d2 : Delegate)
          (v1 v2 : Level) (m1 m2 : String) (a1 a2 : List Any),
        ((Sys.init mutexes ((root.derive chainA).program opA mA aA)
            ((root.derive chainB).program opB mB aB)).run schedule).log =
          pre ++ (t1, Action.writeBegin d1 v1 m1 a1) :: mid ++
            (t2, Action.writeBegin d2 v2 m2 a2) :: post →
        (t1, Action.writeEnd) ∈ mid) := by
  have hA : leveledShape root.mu ((root.derive chainA).program opA mA aA) := by
    have := program_shape (root.derive chainA) opA mA aA
    rwa [(derive_fields root chainA).1] at this
  have hB : leveledShape root.mu ((root.derive chainB).program opB mB aB) := by
    have := program_shape (root.derive chainB) opB mB aB
    rwa [(derive_fields root chainB).1] at this
  have hinv := Inv_run root.mu _ _ schedule _ hA hB (Inv_init root.mu _ _ mutexes hfree)
  have hser : serialized ((Sys.init mutexes ((root.derive chainA).program opA mA aA)
      ((root.derive chainB).program opB mB aB)).run schedule).log = true := by
    unfold serialized
    rw [hinv.2.2.2.2.1]
    rfl
  refine ⟨hser, ?_⟩
  intro pre mid post t1 t2 d1 d2 v1 v2 m1 m2 a1 a2 hlog
  exact serialized_between _ pre mid post t1 t2 d1 d2 v1 v2 m1 m2 a1 a2 hser hlog

/-- C9, at a concrete input: `Info` through a root with prefix "[x]" and `Warn`
through the logger derived with ("module", "txpool"), under a schedule that
lets the second thread try while the first holds the mutex. Both writes are
made, the first wholly before the second. -/
theorem C9_leveled_writes_never_overlap_witness :
    ([false] : List Bool)[0]? = some false ∧
      serialized ((Sys.init [false]
          ((({ l := NewLoggerWithOpts (NewTerminalHandlerWithSource .Stderr LevelInfo false) ⟨1⟩,
               mu := 0, pfx := "[x]" } : logger).derive []).program .Info "peer connected" [])
          ((({ l := NewLoggerWithOpts (NewTerminalHandlerWithSource .Stderr LevelInfo false) ⟨1⟩,
               mu := 0, pfx := "[x]" } : logger).derive
              [.With [.str "module", .str "txpool"]]).program .Warn "pool full" [])).run
        [.A, .B, .A, .B, .A, .B, .A, .B, .B, .B, .B]).log = true ∧
      ((Sys.init [false]
          ((({ l := NewLoggerWithOpts (NewTerminalHandlerWithSource .Stderr LevelInfo false) ⟨1⟩,
               mu := 0, pfx := "[x]" } : logger).derive []).program .Info "peer connected" [])
          ((({ l := NewLoggerWithOpts (NewTerminalHandlerWithSource .Stderr LevelInfo false) ⟨1⟩,
               mu := 0, pfx := "[x]" } : logger).derive
              [.With [.str "module", .str "txpool"]]).program .Warn "pool full" [])).run
        [.A, .B, .A, .B, .A, .B, .A, .B, .B, .B, .B]).log.map Prod.fst =
        [.A, .A, .A, .A, .B, .B, .B, .B] :=
  ⟨by decide,
    (C9_leveled_writes_never_overlap
      { l := NewLoggerWithOpts (NewTerminalHandlerWithSource .Stderr LevelInfo false) ⟨1⟩,
        mu := 0, pfx := "[x]" }
      [] [.With [.str "module", .str "txpool"]] .Info .Warn "peer connected" "pool full"
      [] [] [false] (by decide) [.A, .B, .A, .B, .A, .B, .A, .B, .B, .B, .B]).1,
    by decide⟩

end testlog
